import Mathlib

/-!
Shallow embedding of `src/scripts/auto-calibration.ino` (ESP32 + ADS1115 +
SCT-013 RMS monitor with interactive calibration).

Modelling conventions:
* C `float` / `double` values are embedded as exact rationals `ℚ`; the one
  place the code computes a square root (`measure_vrms`) is embedded over `ℝ`
  with `Real.sqrt`.
* The ADS1115 is an external collaborator; its stream of signed 16-bit
  differential readings is a parameter `adc : ℕ → ℤ` (the i-th call of
  `readADC_Differential_0_1` returns `adc i`).
* The NVS `Preferences` store holds at most the one float under key
  `sct_factor` in namespace `sct_conf`, embedded as `Option ℚ`
  (`none` = key absent).
* Serial input during calibration is embedded by its parsed outcomes: the
  measured `vrms`, the value `iknown` that `String.toFloat` produced from the
  operator's line, and the single confirmation byte.
-/

namespace AutoCal

/-- Source line 15: `const float ADS_LSB = 2.048f / 32768.0f;` -/
def ADS_LSB : ℚ := 2.048 / 32768

/-- Source line 16: `const int SAMPLES = 1600;` -/
def SAMPLES : ℕ := 1600

/-- Source line 20 initializer: `float calibrationFactor = 5.0f;` -/
def defaultFactor : ℚ := 5

/-- Source line 23: `const float IGNORE_THRESHOLD_A = 0.001f;` -/
def IGNORE_THRESHOLD_A : ℚ := 0.001

/-- Source lines 97-103: the accumulation loop of `measure_vrms`.
`sumsq` starts at `0.0` and each iteration adds `v * v` where
`v = raw * ADS_LSB`. -/
def sumsq (adc : ℕ → ℤ) (samples : ℕ) : ℚ :=
  (List.range samples).foldl
    (fun acc i => acc + ((adc i : ℚ) * ADS_LSB) * ((adc i : ℚ) * ADS_LSB)) 0

/-- Source lines 96-106: `measure_vrms` returns `sqrt(sumsq / samples)`. -/
noncomputable def measure_vrms (adc : ℕ → ℤ) (samples : ℕ) : ℝ :=
  Real.sqrt ((sumsq adc samples / (samples : ℚ) : ℚ) : ℝ)

/-- Source lines 109-117: `measure_irms` returns
`measure_vrms(SAMPLES) * calibrationFactor`. -/
noncomputable def measure_irms (adc : ℕ → ℤ) (calibrationFactor : ℚ) : ℝ :=
  measure_vrms adc SAMPLES * (calibrationFactor : ℝ)

/-- The in-memory calibration factor (line 20) together with the persistent
record under `sct_conf/sct_factor` (`none` = key absent). -/
structure CalibState where
  calibrationFactor : ℚ
  nvs : Option ℚ
  deriving DecidableEq

/-- Result of one run of `interactiveCalibration`: the post-state, plus the
value passed to `prefs.putFloat` if that call happened (`none` = no write). -/
structure CalibResult where
  state : CalibState
  wrote : Option ℚ
  deriving DecidableEq

/-- Source lines 124-178: `interactiveCalibration`, from the point where the
serial interaction is resolved into its parsed outcomes.  `vrms` is the value
measured at line 135, `iknown` the float parsed from the operator's line at
line 152, `confirm` the byte read at line 168.
* Lines 153-156: if `iknown <= 0.0f`, return with nothing changed.
* Line 158: `newFactor = iknown / vrms`.
* Lines 169-172: on `'y'`/`'Y'`, set `calibrationFactor = newFactor` then
  `prefs.putFloat(PREF_KEY, calibrationFactor)`.
* Lines 173-176: otherwise set `calibrationFactor = newFactor` only. -/
def interactiveCalibration (st : CalibState) (vrms iknown : ℚ)
    (confirm : Char) : CalibResult :=
  if iknown ≤ 0 then ⟨st, none⟩
  else
    let newFactor := iknown / vrms
    if confirm = 'y' ∨ confirm = 'Y' then
      ⟨⟨newFactor, some newFactor⟩, some newFactor⟩
    else
      ⟨⟨newFactor, st.nvs⟩, none⟩

/-- Semantics of `prefs.getFloat(key, default)`: the stored value when the
key is present, else the supplied default. -/
def getFloat (nvs : Option ℚ) (d : ℚ) : ℚ := nvs.getD d

/-- Source lines 43-51: at startup `calibrationFactor` starts at the compiled
default and, if `prefs.isKey(PREF_KEY)`, is overwritten with
`prefs.getFloat(PREF_KEY, calibrationFactor)`. -/
def setup (nvs : Option ℚ) : ℚ :=
  if nvs.isSome then getFloat nvs defaultFactor else defaultFactor

/-- Source lines 72-75: command `'x'` runs `prefs.remove(PREF_KEY)` and
touches nothing else. -/
def cmdErase (st : CalibState) : CalibState :=
  { st with nvs := none }

/-- One console report of the measured current: either the numeric reading or
the noise relabel (`"I_rms <0.001 A (noise)"`). -/
inductive Report where
  | noise : Report
  | reading (i : ℚ) : Report
  deriving DecidableEq

/-- Source lines 81-91: the periodic auto-measurement prints the noise line
when `i < IGNORE_THRESHOLD_A`, else the numeric reading. -/
def periodicReport (i : ℚ) : Report :=
  if i < IGNORE_THRESHOLD_A then Report.noise else Report.reading i

/-- Source lines 62-67: command `'r'` always prints the numeric reading. -/
def forcedReport (i : ℚ) : Report :=
  Report.reading i

/-- One `Serial.print(value, decimals)` call: the value printed and the
number of decimal places requested. -/
structure PrintEvent where
  value : ℚ
  decimals : ℕ
  deriving DecidableEq

/-- Source line 65: `Serial.print(i, 6)` for the forced measurement. -/
def forcedPrint (i : ℚ) : PrintEvent := ⟨i, 6⟩

/-- Source line 88: `Serial.print(i, 4)` for the periodic measurement. -/
def periodicPrint (i : ℚ) : PrintEvent := ⟨i, 4⟩

/-- Source line 84: `Serial.print(IGNORE_THRESHOLD_A, 3)` in the noise line. -/
def thresholdPrint : PrintEvent := ⟨IGNORE_THRESHOLD_A, 3⟩

/-- Source lines 47, 50, 70, 160: every calibration-factor print uses
`Serial.println(·, 6)`. -/
def factorPrint (f : ℚ) : PrintEvent := ⟨f, 6⟩

/-- Source line 137: `Serial.print(vrms * 1000.0f, 4)` (millivolts). -/
def vrmsPrint (vrms : ℚ) : PrintEvent := ⟨vrms * 1000, 4⟩

/-! Theorems. -/

/-- C1: for every calibration run with measured RMS voltage `V` and parsed
known current `I > 0`, `interactiveCalibration` computes `newFactor = I / V`
and updates the in-memory `calibrationFactor` to it, whatever the
confirmation byte is. -/
theorem calibration_always_updates_live_factor (st : CalibState) (V I : ℚ)
    (c : Char) (hI : 0 < I) :
    (interactiveCalibration st V I c).state.calibrationFactor = I / V := by
  unfold interactiveCalibration
  rw [if_neg (not_le.mpr hI)]
  by_cases hc : c = 'y' ∨ c = 'Y'
  · rw [if_pos hc]
  · rw [if_neg hc]

theorem calibration_always_updates_live_factor_witness :
    (0 : ℚ) < 2 ∧
      (interactiveCalibration ⟨5, none⟩ 4 2 'n').state.calibrationFactor
        = 2 / 4 :=
  ⟨by norm_num,
    calibration_always_updates_live_factor ⟨5, none⟩ 4 2 'n' (by norm_num)⟩

/-- C2: when the operator's input parses to `I ≤ 0` (which covers
unparseable text, parsed as `0`), `interactiveCalibration` aborts: the
in-memory factor and the persistent record are unchanged and no
`putFloat` call happens. -/
theorem calibration_aborts_on_nonpositive_current (st : CalibState)
    (V I : ℚ) (c : Char) (hI : I ≤ 0) :
    (interactiveCalibration st V I c).state = st ∧
      (interactiveCalibration st V I c).wrote = none := by
  unfold interactiveCalibration
  rw [if_pos hI]
  exact ⟨rfl, rfl⟩

theorem calibration_aborts_on_nonpositive_current_witness :
    ((-1 : ℚ) ≤ 0 ∧
      (interactiveCalibration ⟨5, some 7⟩ 4 (-1) 'y').state = ⟨5, some 7⟩ ∧
      (interactiveCalibration ⟨5, some 7⟩ 4 (-1) 'y').wrote = none) ∧
    ((0 : ℚ) ≤ 0 ∧
      (interactiveCalibration ⟨5, some 7⟩ 4 0 'y').state = ⟨5, some 7⟩ ∧
      (interactiveCalibration ⟨5, some 7⟩ 4 0 'y').wrote = none) :=
  ⟨⟨by norm_num,
      calibration_aborts_on_nonpositive_current ⟨5, some 7⟩ 4 (-1) 'y'
        (by norm_num)⟩,
    ⟨le_refl 0,
      calibration_aborts_on_nonpositive_current ⟨5, some 7⟩ 4 0 'y'
        (le_refl 0)⟩⟩

/-- C3: for every calibration factor and every sequence of raw readings,
`measure_irms` is exactly `measure_vrms SAMPLES * calibrationFactor`: a pure
multiplication, with no baseline or offset subtraction. -/
theorem measure_irms_eq_vrms_mul_factor (adc : ℕ → ℤ) (cf : ℚ) :
    measure_irms adc cf = measure_vrms adc SAMPLES * (cf : ℝ) := rfl

/-- C4: in a run that reaches the save prompt (`I > 0`), `putFloat` writes
`newFactor` to the persistent record iff the confirmation byte is `'y'` or
`'Y'`; on any other byte the persistent record is unchanged while the live
factor is still updated. -/
theorem calibration_save_iff_confirm (st : CalibState) (V I : ℚ)
    (c : Char) (hI : 0 < I) :
    ((interactiveCalibration st V I c).wrote = some (I / V) ↔
        (c = 'y' ∨ c = 'Y')) ∧
      (¬(c = 'y' ∨ c = 'Y') →
        (interactiveCalibration st V I c).state.nvs = st.nvs ∧
          (interactiveCalibration st V I c).state.calibrationFactor
            = I / V) := by
  unfold interactiveCalibration
  rw [if_neg (not_le.mpr hI)]
  by_cases hc : c = 'y' ∨ c = 'Y'
  · rw [if_pos hc]
    exact ⟨⟨fun _ => hc, fun _ => rfl⟩, fun h => absurd hc h⟩
  · rw [if_neg hc]
    exact ⟨⟨fun h => absurd h nofun, fun h => absurd h hc⟩, fun _ => ⟨rfl, rfl⟩⟩

theorem calibration_save_iff_confirm_witness :
    (0 : ℚ) < 2 ∧
      (((interactiveCalibration ⟨5, some 7⟩ 4 2 'n').wrote = some (2 / 4) ↔
          ('n' = 'y' ∨ 'n' = 'Y')) ∧
        (¬('n' = 'y' ∨ 'n' = 'Y') →
          (interactiveCalibration ⟨5, some 7⟩ 4 2 'n').state.nvs = some 7 ∧
            (interactiveCalibration ⟨5, some 7⟩ 4 2 'n').state.calibrationFactor
              = 2 / 4)) :=
  ⟨by norm_num, calibration_save_iff_confirm ⟨5, some 7⟩ 4 2 'n' (by norm_num)⟩

/-- C10: whenever `interactiveCalibration` calls `putFloat`, the value
written equals the in-memory `calibrationFactor` after the run, so a
confirmed save leaves the stored and live factors equal. -/
theorem saved_value_eq_live_factor (st : CalibState) (V I : ℚ) (c : Char)
    (w : ℚ) (h : (interactiveCalibration st V I c).wrote = some w) :
    (interactiveCalibration st V I c).state.calibrationFactor = w ∧
      (interactiveCalibration st V I c).state.nvs = some w := by
  unfold interactiveCalibration at h ⊢
  by_cases hI : I ≤ 0
  · rw [if_pos hI] at h
    exact absurd h nofun
  · rw [if_neg hI] at h ⊢
    by_cases hc : c = 'y' ∨ c = 'Y'
    · rw [if_pos hc] at h ⊢
      obtain rfl : I / V = w := Option.some_injective ℚ h
      exact ⟨rfl, rfl⟩
    · rw [if_neg hc] at h
      exact absurd h nofun

theorem saved_value_eq_live_factor_witness :
    (interactiveCalibration ⟨5, none⟩ 4 2 'y').wrote = some (1 / 2) ∧
      (interactiveCalibration ⟨5, none⟩ 4 2 'y').state.calibrationFactor
          = 1 / 2 ∧
        (interactiveCalibration ⟨5, none⟩ 4 2 'y').state.nvs = some (1 / 2) :=
  ⟨by norm_num [interactiveCalibration],
    saved_value_eq_live_factor ⟨5, none⟩ 4 2 'y' (1 / 2)
      (by norm_num [interactiveCalibration])⟩

/-- C6: the periodic auto-measurement is relabeled as the noise form iff the
measured current is below the fixed threshold `0.001` A, while the forced
`'r'` command always reports the numeric reading with no threshold
filtering. -/
theorem periodic_noise_iff_below_threshold :
    IGNORE_THRESHOLD_A = 0.001 ∧
      (∀ i : ℚ, periodicReport i = Report.noise ↔ i < IGNORE_THRESHOLD_A) ∧
      (∀ i : ℚ, forcedReport i = Report.reading i) := by
  refine ⟨rfl, fun i => ?_, fun i => rfl⟩
  unfold periodicReport
  by_cases h : i < IGNORE_THRESHOLD_A
  · simp [h]
  · simp [h]

/-- C7: at startup `calibrationFactor` becomes the stored value when the key
`sct_factor` is present and stays at the compiled default `5.0` otherwise;
the erase command clears the key without touching the in-memory factor, so a
reload after erasing yields `5.0`. -/
theorem setup_loads_stored_else_default :
    (∀ v : ℚ, setup (some v) = v) ∧
      setup none = 5 ∧
      (∀ st : CalibState,
        (cmdErase st).calibrationFactor = st.calibrationFactor ∧
          (cmdErase st).nvs = none ∧
          setup (cmdErase st).nvs = 5) := by
  refine ⟨fun v => rfl, rfl, fun st => ⟨rfl, rfl, rfl⟩⟩

/-- C8 counterexample: the claim says the forced `'r'` measurement's current
reading is displayed with 4 decimal places, but the code
(`Serial.print(i, 6)` at line 65) uses 6. -/
theorem forced_reading_not_four_decimals :
    (forcedPrint 1).decimals = 6 ∧ ¬(forcedPrint 1).decimals = 4 := by
  exact ⟨rfl, by decide⟩

/-- C8 (amended): the periodic current reading and the measured-voltage
display use 4 decimal places, calibration factors 6, the noise threshold 3,
and the forced `'r'` current reading 6 (not 4). -/
theorem print_decimals_spec :
    (∀ i : ℚ, (periodicPrint i).decimals = 4) ∧
      (∀ v : ℚ, (vrmsPrint v).decimals = 4) ∧
      (∀ f : ℚ, (factorPrint f).decimals = 6) ∧
      thresholdPrint.decimals = 3 ∧
      (∀ i : ℚ, (forcedPrint i).decimals = 6) :=
  ⟨fun _ => rfl, fun _ => rfl, fun _ => rfl, rfl, fun _ => rfl⟩

/-- Unfolding one iteration of the accumulation loop of `measure_vrms`. -/
theorem sumsq_succ (adc : ℕ → ℤ) (n : ℕ) :
    sumsq adc (n + 1)
      = sumsq adc n + ((adc n : ℚ) * ADS_LSB) * ((adc n : ℚ) * ADS_LSB) := by
  unfold sumsq
  rw [List.range_succ, List.foldl_append]
  rfl

/-- The accumulation loop computes the sum of the squared per-sample
voltages. -/
theorem sumsq_eq_sum (adc : ℕ → ℤ) (n : ℕ) :
    sumsq adc n = ∑ i in Finset.range n, ((adc i : ℚ) * ADS_LSB) ^ 2 := by
  induction n with
  | zero => rfl
  | succ n ih => rw [sumsq_succ, Finset.sum_range_succ, ih, pow_two]

/-- The per-bit scale, viewed in `ℝ`, is the literal `2.048 / 32768` volts. -/
theorem ADS_LSB_cast : ((ADS_LSB : ℚ) : ℝ) = 2.048 / 32768 := by
  norm_num [ADS_LSB]

/-- C5: for every `samples > 0` and every reading sequence, `measure_vrms`
returns the square root of the mean of the squared per-sample voltages,
each voltage being the raw reading times `2.048 / 32768` volts.  (Rounding
is abstracted to exact arithmetic; the code's `double` accumulator at line
97 and `(double)` casts at line 101 are its finite-precision counterpart.) -/
theorem measure_vrms_spec (adc : ℕ → ℤ) (samples : ℕ) (h : 0 < samples) :
    measure_vrms adc samples
      = Real.sqrt
          ((∑ i in Finset.range samples,
              ((adc i : ℝ) * (2.048 / 32768)) ^ 2) / (samples : ℝ)) := by
  unfold measure_vrms
  congr 1
  rw [sumsq_eq_sum]
  push_cast [ADS_LSB_cast]
  ring

theorem measure_vrms_spec_witness :
    0 < 1 ∧
      measure_vrms (fun _ => 16000) 1
        = Real.sqrt
            ((∑ i in Finset.range 1,
                (((fun _ => (16000 : ℤ)) i : ℝ) * (2.048 / 32768)) ^ 2)
              / ((1 : ℕ) : ℝ)) :=
  ⟨Nat.one_pos, measure_vrms_spec (fun _ => 16000) 1 Nat.one_pos⟩

/-- C9: for every `samples > 0` and every reading sequence, the mean of
squares fed to `sqrt` is non-negative and the value `measure_vrms` returns
is non-negative. -/
theorem measure_vrms_nonneg (adc : ℕ → ℤ) (samples : ℕ) (h : 0 < samples) :
    0 ≤ sumsq adc samples / (samples : ℚ) ∧
      0 ≤ measure_vrms adc samples := by
  constructor
  · refine div_nonneg ?_ (Nat.cast_nonneg samples)
    rw [sumsq_eq_sum]
    exact Finset.sum_nonneg fun i _ => sq_nonneg _
  · exact Real.sqrt_nonneg _

theorem measure_vrms_nonneg_witness :
    0 < 1 ∧
      (0 ≤ sumsq (fun _ => -3) 1 / ((1 : ℕ) : ℚ) ∧
        0 ≤ measure_vrms (fun _ => -3) 1) :=
  ⟨Nat.one_pos, measure_vrms_nonneg (fun _ => -3) 1 Nat.one_pos⟩

end AutoCal
